import Mathlib

/-!
Verification of the Game-of-Life core of this repository.

The embedding covers:
* `parse_rle` — the RLE pattern decoder (`src/simulation/pattern.rs`);
* `should_cell_survive`, `should_cell_be_born`, `calculate_neighbor_counts`
  — the rule evaluator and neighbor counter (`src/simulation/rules.rs`);
* `calculate_next_generation` — the per-tick generation step, its kill/spawn
  lists, the scheduler gating, and the dead-entity pool
  (`lib/simulation/src/generation.rs`, `lib/simulation/src/cell.rs`).

Machine integers: the decoder works on Rust `i32`; every arithmetic step is
wrapped with `wrap32` (wraparound modulo 2^32, the release-build
semantics of `i32` overflow).  Cell positions are `isize`; the simulation
claims never approach the `isize` range, so they are modelled as plain `ℤ`.
-/

namespace GOL

/-- Wraparound (modulo 2^32, sign-adjusted) of an integer into the `i32` range
`[-2^31, 2^31)`.  Models Rust release-mode `i32` arithmetic. -/
def wrap32 (z : ℤ) : ℤ := (z + 2 ^ 31) % 2 ^ 32 - 2 ^ 31

/-- State of the RLE scan loop in `parse_rle`: the cells emitted so far and
the mutable locals `x`, `y`, `num` of the Rust function. -/
structure ParseState where
  cells : List (ℤ × ℤ)
  x : ℤ
  y : ℤ
  num : ℤ
deriving Repr, DecidableEq

/-- Recognized byte predicate: the RLE alphabet `0-9 b . o $ !`.
Bytes are compared through `Char.toNat`, matching the byte-level match of
the Rust loop (all alphabet bytes are ASCII, so a char equals its byte). -/
def isRLEByte (c : Char) : Bool :=
  (48 ≤ c.toNat && c.toNat ≤ 57) || c == 'b' || c == '.' || c == 'o' ||
    c == '$' || c == '!'

/-- One iteration of the `for byte in rle.bytes()` loop body of `parse_rle`
(every arm except the `b'!' => break`, which the driver `parseRLE` handles).
Digits accumulate `num = num * 10 + (byte - 48)` in `i32` arithmetic;
`b`/`.` advances `x` by `num.max(1)`; `o` pushes `num.max(1)` cells and
advances `x`; `$` advances `y` by `num.max(1)` and resets `x`; any other
byte leaves the state unchanged. -/
def parseStep (st : ParseState) (c : Char) : ParseState :=
  if 48 ≤ c.toNat ∧ c.toNat ≤ 57 then
    { st with num := wrap32 (wrap32 (st.num * 10) + ((c.toNat : ℤ) - 48)) }
  else if c = 'b' ∨ c = '.' then
    { st with x := wrap32 (st.x + max st.num 1), num := 0 }
  else if c = 'o' then
    let count := max st.num 1
    { st with
        cells := st.cells ++ (List.range count.toNat).map
          (fun i => (wrap32 (st.x + (i : ℤ)), st.y)),
        x := wrap32 (st.x + count), num := 0 }
  else if c = '$' then
    { st with y := wrap32 (st.y + max st.num 1), x := 0, num := 0 }
  else st

/-- The scan loop of `parse_rle`: left-to-right over the bytes, stopping at
the first `!` (the `break` arm) and otherwise folding `parseStep`. -/
def parseRLE : List Char → ParseState → ParseState
  | [], st => st
  | c :: rest, st => if c = '!' then st else parseRLE rest (parseStep st c)

/-- Initial state of the scan: `cells = vec![]`, `x = 0`, `y = 0`, `num = 0`. -/
def initState : ParseState := { cells := [], x := 0, y := 0, num := 0 }

/-- `parse_rle` from `src/simulation/pattern.rs`: decode an RLE string to
the emitted list of `(x, y)` cell coordinates. -/
def parse_rle (rle : String) : List (ℤ × ℤ) :=
  (parseRLE rle.data initState).cells

/-- A cell position: the `CellPosition { x: isize, y: isize }` struct. -/
abbrev CellPosition := ℤ × ℤ

/-- `should_cell_survive` from `src/simulation/rules.rs`:
`matches!(neighbor_count, 2 | 3)`. -/
def should_cell_survive (neighbor_count : ℕ) : Bool :=
  neighbor_count == 2 || neighbor_count == 3

/-- `should_cell_be_born` from `src/simulation/rules.rs`:
`neighbor_count == 3`. -/
def should_cell_be_born (neighbor_count : ℕ) : Bool :=
  neighbor_count == 3

/-- The `NEIGHBORS` offset table from `src/simulation/rules.rs`, in source
order. -/
def NEIGHBORS : List (ℤ × ℤ) :=
  [(-1, -1), (0, -1), (1, -1), (-1, 0), (1, 0), (-1, 1), (0, 1), (1, 1)]

/-- Number of increments the alive cell `c` contributes to the map entry at
`p` in the loop `for &(dx, dy) in &NEIGHBORS { neighbors[c + d] += 1 }`:
the number of offsets `d` with `c + d = p`. -/
def neighborContrib (c p : CellPosition) : ℕ :=
  NEIGHBORS.countP (fun d => c.1 + d.1 == p.1 && c.2 + d.2 == p.2)

/-- `calculate_neighbor_counts` from `src/simulation/rules.rs`, represented
as a total function: the hash map produced by the double loop sends `p` to
the total number of increments it received (a key absent from the map is
exactly a position with zero increments, read back as `0` by the
`get(...).unwrap_or(0)` in the generation system).  The hash map is built
by commutative `+= 1` updates, so its final contents are independent of
iteration order and equal this sum over the alive set. -/
def calculate_neighbor_counts (alive : Finset CellPosition) :
    CellPosition → ℕ :=
  fun p => Finset.sum alive (fun c => neighborContrib c p)

/-- The key set of the neighbor-count hash map: every position that
received at least one increment, i.e. `c + d` for `c` alive and `d` in
`NEIGHBORS`.  The spawn loop of `calculate_next_generation` iterates over
exactly these entries. -/
def neighborKeys (alive : Finset CellPosition) : Finset CellPosition :=
  alive.biUnion (fun c =>
    (NEIGHBORS.map (fun d => (c.1 + d.1, c.2 + d.2))).toFinset)

/-- Specification-side Moore adjacency: `c` and `p` are distinct and differ
by at most 1 in each coordinate. -/
def isMooreNeighbor (c p : CellPosition) : Prop :=
  ¬(c.1 = p.1 ∧ c.2 = p.2) ∧ (c.1 - p.1).natAbs ≤ 1 ∧ (c.2 - p.2).natAbs ≤ 1

instance (c p : CellPosition) : Decidable (isMooreNeighbor c p) := by
  unfold isMooreNeighbor; infer_instance

/-- Specification-side neighbor count: the number of alive cells Moore-adjacent
to `p`. -/
def liveNeighbors (alive : Finset CellPosition) (p : CellPosition) : ℕ :=
  (alive.filter (fun c => isMooreNeighbor c p)).card

/-- The kill-list of `calculate_next_generation`: every alive cell whose
looked-up neighbor count (`get(cell).copied().unwrap_or(0)`) fails
`should_cell_survive`. -/
def cells_to_kill (alive : Finset CellPosition) : Finset CellPosition :=
  alive.filter
    (fun c => should_cell_survive (calculate_neighbor_counts alive c) = false)

/-- The spawn-list of `calculate_next_generation`: every entry `(pos, count)`
of the neighbor-count map with `should_cell_be_born(count)` and
`!alive_positions.contains(pos)`. -/
def cells_to_spawn (alive : Finset CellPosition) : Finset CellPosition :=
  (neighborKeys alive).filter
    (fun p => should_cell_be_born (calculate_neighbor_counts alive p) = true ∧
      p ∉ alive)

/-- The alive set after one run of the tick body of
`calculate_next_generation`: the kill loop removes the `Alive` marker from
every kill-list entity, then the spawn loop makes every spawn-list position
alive.  Both lists were computed from the `alive_positions` snapshot taken
before any of these deferred mutations is applied. -/
def nextGeneration (alive : Finset CellPosition) : Finset CellPosition :=
  (alive \ cells_to_kill alive) ∪ cells_to_spawn alive

/-- The startup pattern spawned by `setup_initial_pattern` in
`lib/simulation/src/cell.rs`: `[(0, 0), (-1, 0), (0, -1), (0, 1), (1, 1)]`. -/
def setup_initial_pattern : Finset CellPosition :=
  {(0, 0), (-1, 0), (0, -1), (0, 1), (1, 1)}

/-- State of the cell store as seen by `calculate_next_generation`: the
alive entities (each an `(Alive, CellPosition)` entity of the ECS world,
as `(position, entity-id)` pairs in query-iteration order), the
`DeadCellPool` contents, and the next fresh entity id the world would
allocate.  The Rust pool is a `Vec` pushed and popped at the back; it is
modelled here most-recent-first (push is cons, pop takes the head), an
order-preserving renaming of the same LIFO stack. -/
structure CellStore where
  alive : List (CellPosition × ℕ)
  pool : List ℕ
  nextEntity : ℕ
deriving Repr, DecidableEq

/-- The entity handles currently carrying the `Alive` marker. -/
def aliveHandles (st : CellStore) : List ℕ := st.alive.map Prod.snd

/-- The `alive_positions` snapshot: the set of positions of alive cells. -/
def alivePositions (st : CellStore) : Finset CellPosition :=
  (st.alive.map Prod.fst).toFinset

/-- One iteration of the kill loop:
`commands.entity(e).remove::<Alive>().insert(Visibility::Hidden)` (the
entity stops being alive) followed by `dead_pool.entities.push(e)`. -/
def killCell (st : CellStore) (e : ℕ) : CellStore :=
  { st with alive := st.alive.filter (fun ch => decide (ch.2 ≠ e)),
            pool := e :: st.pool }

/-- One iteration of the spawn loop:
`if let Some(entity) = dead_pool.entities.pop()` reuse that entity for the
new position, `else` `commands.spawn(...)` a fresh one. -/
def spawnCell (st : CellStore) (p : CellPosition) : CellStore :=
  match st.pool with
  | e :: rest => { st with alive := (p, e) :: st.alive, pool := rest }
  | [] => { st with alive := (p, st.nextEntity) :: st.alive,
                    nextEntity := st.nextEntity + 1 }

/-- The `cells_to_kill` vector of entity ids: every alive entity whose
position fails `should_cell_survive`, in query-iteration order. -/
def storeKillList (st : CellStore) : List ℕ :=
  (st.alive.filter (fun ch =>
    should_cell_survive
      (calculate_neighbor_counts (alivePositions st) ch.1) = false)).map
    Prod.snd

/-- The `cells_to_spawn` vector of positions: the entries of the
neighbor-count map passing `should_cell_be_born` and not currently alive
(hash-map iteration order is unspecified; any duplicate-free enumeration
of the keys represents it). -/
def storeSpawnList (st : CellStore) : List CellPosition :=
  (((st.alive.map Prod.fst).flatMap (fun c =>
      NEIGHBORS.map (fun d => (c.1 + d.1, c.2 + d.2)))).dedup).filter
    (fun p => decide
      (should_cell_be_born
        (calculate_neighbor_counts (alivePositions st) p) = true ∧
        p ∉ alivePositions st))

/-- The tick body of `calculate_next_generation` at the entity level: run
the kill loop over the kill-list, then the spawn loop over the
spawn-list. -/
def storeNextGeneration (st : CellStore) : CellStore :=
  (storeSpawnList st).foldl spawnCell ((storeKillList st).foldl killCell st)

/-- The dead-pool invariants of the cell store: alive handles are distinct,
pooled handles are distinct, no handle is both pooled and alive, and every
handle in use is below the next fresh id. -/
def StoreInv (st : CellStore) : Prop :=
  (aliveHandles st).Nodup ∧ st.pool.Nodup ∧
  (∀ e ∈ st.pool, e ∉ aliveHandles st) ∧
  (∀ e ∈ st.pool, e < st.nextEntity) ∧
  (∀ e ∈ aliveHandles st, e < st.nextEntity)

instance (st : CellStore) : Decidable (StoreInv st) := by
  unfold StoreInv; infer_instance

/-- State read and written by the scheduler gate of
`calculate_next_generation`: the `running` and `calculate_next_gen` flags
of `SimulationConfig`, the repeating `GenerationTimer` (elapsed time and
duration, in any fixed time unit), and the alive set. -/
structure SchedState where
  running : Bool
  calculate_next_gen : Bool
  elapsed : ℕ
  duration : ℕ
  alive : Finset CellPosition

/-- One invocation of the `calculate_next_generation` system with frame
delta `delta`.  Running mode: tick the repeating timer and return unless it
finished (a finished repeating timer wraps its elapsed time).  Paused mode:
return unless `calculate_next_gen` is set; when it is set, clear it and
compute the generation. -/
def calculate_next_generation (st : SchedState) (delta : ℕ) : SchedState :=
  if st.running then
    let e := st.elapsed + delta
    if e < st.duration then { st with elapsed := e }
    else { st with elapsed := e % st.duration,
                   alive := nextGeneration st.alive }
  else if st.calculate_next_gen = false then st
  else { st with calculate_next_gen := false,
                 alive := nextGeneration st.alive }

/-- A sequence of invocations of the system, one per frame delta. -/
def runInvocations (st : SchedState) : List ℕ → SchedState
  | [] => st
  | d :: ds => runInvocations (calculate_next_generation st d) ds

/-- A concrete paused scheduler state with the single-step flag set. -/
def schedExample : SchedState :=
  ⟨false, true, 0, 100, setup_initial_pattern⟩

/-- A concrete well-formed cell store: two alive cells on entities 0 and 1,
entity 5 pooled, next fresh id 6. -/
def cellStoreExample : CellStore :=
  ⟨[((0, 0), 0), ((2, 2), 1)], [5], 6⟩

/-- Each alive cell contributes one increment to a position exactly when it
is Moore-adjacent to it. -/
lemma neighborContrib_eq (c p : CellPosition) :
    neighborContrib c p = if isMooreNeighbor c p then 1 else 0 := by
  obtain ⟨c1, c2⟩ := c
  obtain ⟨p1, p2⟩ := p
  simp only [neighborContrib, NEIGHBORS, List.countP_cons, List.countP_nil,
    Bool.and_eq_true, beq_iff_eq, decide_eq_true_eq, isMooreNeighbor]
  split_ifs <;> omega

/-- The neighbor-count map agrees with the specification-side count of
living Moore neighbors. -/
lemma calculate_neighbor_counts_eq (alive : Finset CellPosition)
    (p : CellPosition) :
    calculate_neighbor_counts alive p = liveNeighbors alive p := by
  unfold calculate_neighbor_counts liveNeighbors
  rw [Finset.card_filter]
  exact Finset.sum_congr rfl (fun c _ => neighborContrib_eq c p)

/-- A position is a key of the neighbor-count map iff some alive cell is
Moore-adjacent to it. -/
lemma mem_neighborKeys (alive : Finset CellPosition) (p : CellPosition) :
    p ∈ neighborKeys alive ↔ ∃ c ∈ alive, isMooreNeighbor c p := by
  unfold neighborKeys
  simp only [Finset.mem_biUnion, List.mem_toFinset, List.mem_map, NEIGHBORS,
    List.mem_cons, List.not_mem_nil, or_false, Prod.mk.injEq, Prod.ext_iff]
  refine exists_congr (fun c => and_congr_right (fun _ => ?_))
  obtain ⟨c1, c2⟩ := c
  obtain ⟨p1, p2⟩ := p
  simp only [isMooreNeighbor]
  constructor
  · rintro ⟨d, hd, h1, h2⟩
    omega
  · rintro ⟨hne, ha1, hb1⟩
    exact ⟨(p1 - c1, p2 - c2), by omega, by ring, by ring⟩

/-- The live-neighbor count is positive iff some alive cell is
Moore-adjacent. -/
lemma liveNeighbors_pos (alive : Finset CellPosition) (p : CellPosition) :
    0 < liveNeighbors alive p ↔ ∃ c ∈ alive, isMooreNeighbor c p := by
  simp [liveNeighbors, Finset.card_pos, Finset.filter_nonempty_iff]

/-- Claim C1: one generation step computes exactly the B3/S23 successor of
the alive set: after the step a coordinate is alive iff it was alive with 2
or 3 living Moore neighbors, or dead with exactly 3 living Moore neighbors.
All kill and spawn decisions are evaluated against the one snapshot `alive`
taken before any mutation. -/
theorem next_generation_is_B3S23 (alive : Finset CellPosition)
    (c : CellPosition) :
    c ∈ nextGeneration alive ↔
      ((c ∈ alive ∧ (liveNeighbors alive c = 2 ∨ liveNeighbors alive c = 3)) ∨
        (c ∉ alive ∧ liveNeighbors alive c = 3)) := by
  unfold nextGeneration cells_to_kill cells_to_spawn
  simp only [Finset.mem_union, Finset.mem_sdiff, Finset.mem_filter,
    mem_neighborKeys, calculate_neighbor_counts_eq, should_cell_survive,
    should_cell_be_born, Bool.or_eq_false_iff, beq_eq_false_iff_ne,
    beq_iff_eq, ← liveNeighbors_pos]
  by_cases hc : c ∈ alive <;> simp [hc] <;> omega

/-- Claim C2: evaluation of the code at the startup pattern.  The bundled
5-cell pattern is the R-pentomino, not a glider (contradicting the doc
comment of `setup_initial_pattern`): after 4 generation steps the alive set
has 8 cells and is not the generation-0 set translated by `(+1, +1)`. -/
theorem setup_pattern_after_four_generations :
    nextGeneration^[4] setup_initial_pattern =
      {(0, -1), (-1, -1), (1, 0), (-2, 0), (1, 1), (-1, 2), (1, 2),
        (-2, 1)} ∧
    nextGeneration^[4] setup_initial_pattern ≠
      setup_initial_pattern.image (fun p => (p.1 + 1, p.2 + 1)) := by
  constructor <;> decide

/-- Claim C5: for every neighbor count, `should_cell_survive` holds iff the
count is 2 or 3 and `should_cell_be_born` holds iff the count is exactly 3
(in particular both are false for every other value in `[0, 8]`). -/
theorem rule_evaluator_is_B3S23 (n : ℕ) :
    (should_cell_survive n = true ↔ (n = 2 ∨ n = 3)) ∧
    (should_cell_be_born n = true ↔ n = 3) := by
  simp [should_cell_survive, should_cell_be_born]

/-- Claim C6: decoding `"bo$2bo$3o!"` yields exactly the 5-cell set
`{(1,0), (2,1), (0,2), (1,2), (2,2)}` and decoding `"3o!"` yields exactly
`{(0,0), (1,0), (2,0)}`. -/
theorem parse_rle_examples :
    (parse_rle "bo$2bo$3o!").length = 5 ∧
    (parse_rle "bo$2bo$3o!").toFinset =
      {(1, 0), (2, 1), (0, 2), (1, 2), (2, 2)} ∧
    (parse_rle "3o!").length = 3 ∧
    (parse_rle "3o!").toFinset = {(0, 0), (1, 0), (2, 0)} := by
  refine ⟨?_, ?_, ?_, ?_⟩ <;> decide

/-- Claim C7: within a single generation step the kill-list and the
spawn-list are disjoint: kill candidates are drawn from alive cells,
spawn candidates only from positions not currently alive. -/
theorem kill_spawn_disjoint (alive : Finset CellPosition) :
    Disjoint (cells_to_kill alive) (cells_to_spawn alive) := by
  rw [Finset.disjoint_left]
  intro a ha hb
  exact (Finset.mem_filter.mp hb).2.2 (Finset.mem_filter.mp ha).1

/-- Claim C10: an alive cell with zero living neighbors has no entry in the
neighbor-count map, the lookup defaults to 0, and the cell lands on the
kill-list and is dead after the step. -/
theorem isolated_cell_dies (alive : Finset CellPosition) (c : CellPosition)
    (hc : c ∈ alive) (h0 : liveNeighbors alive c = 0) :
    c ∉ neighborKeys alive ∧ calculate_neighbor_counts alive c = 0 ∧
      c ∈ cells_to_kill alive ∧ c ∉ nextGeneration alive := by
  have hkeys : c ∉ neighborKeys alive := by
    rw [mem_neighborKeys, ← liveNeighbors_pos]
    omega
  have hcount : calculate_neighbor_counts alive c = 0 := by
    rw [calculate_neighbor_counts_eq]
    exact h0
  have hkill : c ∈ cells_to_kill alive := by
    rw [cells_to_kill, Finset.mem_filter]
    exact ⟨hc, by rw [hcount]; rfl⟩
  refine ⟨hkeys, hcount, hkill, fun hmem => ?_⟩
  rcases Finset.mem_union.mp hmem with h | h
  · exact (Finset.mem_sdiff.mp h).2 hkill
  · exact (Finset.mem_filter.mp h).2.2 hc

/-- Witness for claim C10 at the singleton alive set `{(0, 0)}`. -/
theorem isolated_cell_dies_witness :
    (0, 0) ∉ neighborKeys {((0, 0) : CellPosition)} ∧
      calculate_neighbor_counts {((0, 0) : CellPosition)} (0, 0) = 0 ∧
      (0, 0) ∈ cells_to_kill {((0, 0) : CellPosition)} ∧
      (0, 0) ∉ nextGeneration {((0, 0) : CellPosition)} :=
  isolated_cell_dies {(0, 0)} (0, 0) (by decide) (by decide)

/-- A byte outside the RLE alphabet leaves the scan state unchanged. -/
lemma parseStep_ignored (st : ParseState) (c : Char)
    (h : isRLEByte c = false) : parseStep st c = st := by
  simp only [isRLEByte, Bool.or_eq_false_iff, Bool.and_eq_false_iff,
    beq_eq_false_iff_ne, decide_eq_false_iff_not] at h
  unfold parseStep
  split_ifs with h1 h2 h3 h4 <;> first | rfl | (exfalso; tauto)

/-- A leading run of unrecognized bytes can be dropped from the input. -/
lemma parseRLE_ignored_prefix (junk rest : List Char) (st : ParseState)
    (h : ∀ c ∈ junk, isRLEByte c = false) :
    parseRLE (junk ++ rest) st = parseRLE rest st := by
  induction junk with
  | nil => rfl
  | cons c cs ih =>
    have hc := h c (List.mem_cons_self c cs)
    have hbang : ¬(c = '!') := by
      intro e
      subst e
      simp [isRLEByte] at hc
    simp only [List.cons_append, parseRLE, if_neg hbang,
      parseStep_ignored st c hc]
    exact ih (fun c' hc' => h c' (List.mem_cons_of_mem c hc'))

/-- A run of unrecognized bytes inserted anywhere in the input can be
dropped. -/
lemma parseRLE_insert_ignored (pre junk suf : List Char) (st : ParseState)
    (h : ∀ c ∈ junk, isRLEByte c = false) :
    parseRLE (pre ++ (junk ++ suf)) st = parseRLE (pre ++ suf) st := by
  induction pre generalizing st with
  | nil =>
    exact parseRLE_ignored_prefix junk suf st h
  | cons c cs ih =>
    by_cases hc : c = '!'
    · simp [parseRLE, hc]
    · simp only [List.cons_append, parseRLE, if_neg hc]
      exact ih (parseStep st c)

/-- Claim C3 (amended): every byte outside the alphabet
`{0-9, b, ., o, $, !}` is skipped with the parser state unchanged; text
made only of such bytes decodes to the empty list; and inserting a segment
made only of such bytes anywhere in a pattern text does not change the
decoding.  (Header lines containing digits or tag letters, such as
`x = 2`, are *not* inert — see the counterexample.) -/
theorem rle_ignores_unrecognized_bytes :
    (∀ (st : ParseState) (c : Char), isRLEByte c = false →
      parseStep st c = st) ∧
    (∀ s : List Char, (∀ c ∈ s, isRLEByte c = false) →
      (parseRLE s initState).cells = []) ∧
    (∀ pre junk suf : List Char, (∀ c ∈ junk, isRLEByte c = false) →
      parseRLE (pre ++ (junk ++ suf)) initState =
        parseRLE (pre ++ suf) initState) := by
  refine ⟨parseStep_ignored, fun s h => ?_, fun pre junk suf h =>
    parseRLE_insert_ignored pre junk suf initState h⟩
  have h2 := parseRLE_ignored_prefix s [] initState h
  rw [List.append_nil] at h2
  rw [h2]
  rfl

/-- Witness for claim C3: `"xyz"` decodes to nothing, and a digit-free
comment line inserted into the glider RLE does not change the decoding. -/
theorem rle_ignores_witness :
    parse_rle "xyz" = [] ∧
    parseRLE ("bo$".data ++ ("#N glider\n".data ++ "2bo$3o!".data))
        initState =
      parseRLE ("bo$".data ++ "2bo$3o!".data) initState :=
  ⟨rle_ignores_unrecognized_bytes.2.1 "xyz".data (by decide),
    rle_ignores_unrecognized_bytes.2.2 "bo$".data "#N glider\n".data
      "2bo$3o!".data (by decide)⟩

/-- Counterexample to claim C3 as stated: inserting the metadata header
line `x = 2` in front of `o!` changes the decoded coordinate set (the
digit `2` is accumulated as a run length and makes the `o` emit two
cells). -/
theorem rle_header_changes_decoding :
    (parse_rle "x = 2\no!").toFinset ≠ (parse_rle "o!").toFinset := by
  decide

/-- A digit-only input only accumulates `num`: no cells are emitted and
the cursor does not move. -/
lemma parseRLE_digits (s : List Char) (st : ParseState)
    (h : ∀ c ∈ s, 48 ≤ c.toNat ∧ c.toNat ≤ 57) :
    (parseRLE s st).cells = st.cells ∧ (parseRLE s st).x = st.x ∧
      (parseRLE s st).y = st.y := by
  induction s generalizing st with
  | nil => exact ⟨rfl, rfl, rfl⟩
  | cons c cs ih =>
    have hc := h c (List.mem_cons_self c cs)
    have hbang : ¬(c = '!') := by
      intro e
      subst e
      exact absurd hc (by decide)
    have hstep : parseStep st c =
        { st with num := wrap32 (wrap32 (st.num * 10) +
            ((c.toNat : ℤ) - 48)) } := by
      unfold parseStep
      rw [if_pos hc]
    simp only [parseRLE, if_neg hbang]
    obtain ⟨h1, h2, h3⟩ := ih (parseStep st c)
      (fun c' hc' => h c' (List.mem_cons_of_mem c hc'))
    rw [hstep] at h1 h2 h3
    refine ⟨?_, ?_, ?_⟩ <;> rw [hstep]
    · exact h1
    · exact h2
    · exact h3

/-- Claim C4: the decoder is a total pure function of its input (every
Lean definition here is total, and `i32` overflow wraps); a `b`/`.`/`o`/`$`
tag with no preceding digits (`num = 0`) uses a run length of 1; and an
arbitrarily long digit run on its own emits no cells and raises no
error. -/
theorem parse_rle_default_run_length :
    (∀ st : ParseState, st.num = 0 →
      parseStep st 'o' = { st with
        cells := (st.cells ++ [(wrap32 st.x, st.y)]),
        x := wrap32 (st.x + 1) } ∧
      parseStep st 'b' = { st with x := wrap32 (st.x + 1) } ∧
      parseStep st '.' = { st with x := wrap32 (st.x + 1) } ∧
      parseStep st '$' = { st with y := wrap32 (st.y + 1), x := 0 }) ∧
    (∀ s : List Char, (∀ c ∈ s, 48 ≤ c.toNat ∧ c.toNat ≤ 57) →
      (parseRLE s initState).cells = []) := by
  constructor
  · intro st h
    refine ⟨?_, ?_, ?_, ?_⟩
    · unfold parseStep
      rw [if_neg (by decide), if_neg (by decide), if_pos rfl, h]
      norm_num [List.range_succ]
    · unfold parseStep
      rw [if_neg (by decide), if_pos (Or.inl rfl)]
      simp [h]
    · unfold parseStep
      rw [if_neg (by decide), if_pos (Or.inr rfl)]
      simp [h]
    · unfold parseStep
      rw [if_neg (by decide), if_neg (by decide), if_neg (by decide),
        if_pos rfl]
      simp [h]
  · intro s h
    exact (parseRLE_digits s initState h).1

/-- Witness for claim C4: a stray `o` at cursor `(7, 5)` emits exactly one
cell, and a 30-digit run (far beyond `i32`) decodes to the empty list. -/
theorem parse_rle_default_run_witness :
    parseStep ⟨[], 7, 5, 0⟩ 'o' = ⟨[(7, 5)], 8, 5, 0⟩ ∧
    (parseRLE "123456789012345678901234567890".data initState).cells = [] :=
  ⟨by rw [(parse_rle_default_run_length.1 ⟨[], 7, 5, 0⟩ rfl).1]; decide,
    parse_rle_default_run_length.2 "123456789012345678901234567890".data
      (by decide)⟩

/-- A paused scheduler invocation with the single-step flag unset is the
identity. -/
lemma sched_step_paused_idle (st : SchedState) (d : ℕ)
    (hr : st.running = false) (hf : st.calculate_next_gen = false) :
    calculate_next_generation st d = st := by
  unfold calculate_next_generation
  rw [hr, hf]
  simp

/-- Any number of paused invocations with the flag unset is the identity. -/
lemma runInvocations_paused_idle (st : SchedState)
    (hr : st.running = false) (hf : st.calculate_next_gen = false) :
    ∀ ds, runInvocations st ds = st := by
  intro ds
  induction ds with
  | nil => rfl
  | cons d ds ih =>
    rw [runInvocations, sched_step_paused_idle st d hr hf]
    exact ih

/-- Claim C9: in paused mode an invocation computes a generation iff the
single-step flag is set; the flag is cleared when the generation is
computed; with the flag unset the invocation changes nothing; and after
one flagged invocation, any sequence of further invocations leaves the
alive set at exactly one generation past the original. -/
theorem paused_single_step (st : SchedState) (d : ℕ)
    (hr : st.running = false) :
    (st.calculate_next_gen = false → calculate_next_generation st d = st) ∧
    (st.calculate_next_gen = true →
      (calculate_next_generation st d).alive = nextGeneration st.alive ∧
      (calculate_next_generation st d).calculate_next_gen = false ∧
      ∀ ds, (runInvocations (calculate_next_generation st d) ds).alive =
        nextGeneration st.alive) := by
  refine ⟨sched_step_paused_idle st d hr, fun hf => ?_⟩
  have hstep : calculate_next_generation st d =
      { st with calculate_next_gen := false,
                alive := nextGeneration st.alive } := by
    unfold calculate_next_generation
    rw [hr, hf]
    simp
  rw [hstep]
  refine ⟨rfl, rfl, fun ds => ?_⟩
  have h2 := runInvocations_paused_idle
    { st with calculate_next_gen := false,
              alive := nextGeneration st.alive } (by exact hr) rfl ds
  rw [h2]

/-- Witness for claim C9: one flagged paused invocation followed by two
more invocations yields exactly one generation of the startup pattern. -/
theorem paused_single_step_witness :
    (runInvocations (calculate_next_generation schedExample 3)
        [4, 5]).alive =
      nextGeneration schedExample.alive :=
  ((paused_single_step schedExample 3 rfl).2 rfl).2.2 [4, 5]

/-- Killing entity `e` leaves exactly the alive entries whose handle is
not `e`. -/
lemma mem_aliveHandles_killCell (st : CellStore) (e x : ℕ) :
    x ∈ aliveHandles (killCell st e) ↔ x ∈ aliveHandles st ∧ x ≠ e := by
  unfold aliveHandles killCell
  simp only [List.mem_map, List.mem_filter, decide_eq_true_eq]
  constructor
  · rintro ⟨ch, ⟨hmem, hne⟩, rfl⟩
    exact ⟨⟨ch, hmem, rfl⟩, hne⟩
  · rintro ⟨⟨ch, hmem, rfl⟩, hne⟩
    exact ⟨ch, ⟨hmem, hne⟩, rfl⟩

/-- The alive handles after a kill are a sublist of those before. -/
lemma aliveHandles_killCell_sublist (st : CellStore) (e : ℕ) :
    (aliveHandles (killCell st e)).Sublist (aliveHandles st) :=
  (List.filter_sublist st.alive).map Prod.snd

/-- Killing an alive entity preserves the store invariant. -/
lemma killCell_inv (st : CellStore) (e : ℕ) (h : StoreInv st)
    (he : e ∈ aliveHandles st) : StoreInv (killCell st e) := by
  obtain ⟨h1, h2, h3, h4, h5⟩ := h
  refine ⟨h1.sublist (aliveHandles_killCell_sublist st e), ?_, ?_, ?_, ?_⟩
  · exact List.nodup_cons.mpr ⟨fun hp => h3 e hp he, h2⟩
  · intro x hx
    rw [mem_aliveHandles_killCell]
    rcases List.mem_cons.mp hx with rfl | hp
    · rintro ⟨-, hne⟩
      exact hne rfl
    · rintro ⟨hmem, -⟩
      exact h3 x hp hmem
  · intro x hx
    rcases List.mem_cons.mp hx with rfl | hp
    · exact h5 x he
    · exact h4 x hp
  · intro x hx
    exact h5 x ((aliveHandles_killCell_sublist st e).subset hx)

/-- The whole kill loop preserves the store invariant when run over
distinct alive handles. -/
lemma killFold_inv (es : List ℕ) (st : CellStore) (h : StoreInv st)
    (hnd : es.Nodup) (hsub : ∀ e ∈ es, e ∈ aliveHandles st) :
    StoreInv (es.foldl killCell st) := by
  induction es generalizing st with
  | nil => exact h
  | cons e es ih =>
    rw [List.foldl_cons]
    obtain ⟨hne, hnd'⟩ := List.nodup_cons.mp hnd
    refine ih (killCell st e) (killCell_inv st e h
      (hsub e (List.mem_cons_self e es))) hnd' ?_
    intro e' he'
    rw [mem_aliveHandles_killCell]
    refine ⟨hsub e' (List.mem_cons_of_mem e he'), fun eq => ?_⟩
    exact hne (eq ▸ he')

/-- One spawn (pool pop or fresh allocation) preserves the store
invariant. -/
lemma spawnCell_inv (st : CellStore) (p : CellPosition) (h : StoreInv st) :
    StoreInv (spawnCell st p) := by
  obtain ⟨h1, h2, h3, h4, h5⟩ := h
  unfold spawnCell
  cases hp : st.pool with
  | nil =>
    refine ⟨?_, by simp, by simp, by simp, ?_⟩
    · refine List.nodup_cons.mpr ⟨fun hmem => ?_, h1⟩
      exact lt_irrefl _ (h5 _ hmem)
    · intro x hx
      rcases List.mem_cons.mp hx with rfl | hmem
      · exact Nat.lt_succ_self _
      · exact Nat.lt_succ_of_lt (h5 x hmem)
  | cons e rest =>
    have hepool : e ∈ st.pool := by rw [hp]; exact List.mem_cons_self e rest
    obtain ⟨hnotr, hndr⟩ := List.nodup_cons.mp (hp ▸ h2)
    refine ⟨?_, hndr, ?_, ?_, ?_⟩
    · exact List.nodup_cons.mpr ⟨h3 e hepool, h1⟩
    · intro x hx
      have hxpool : x ∈ st.pool := by
        rw [hp]
        exact List.mem_cons_of_mem e hx
      intro hmem
      rcases List.mem_cons.mp hmem with rfl | hmem'
      · exact hnotr hx
      · exact h3 x hxpool hmem'
    · intro x hx
      exact h4 x (by rw [hp]; exact List.mem_cons_of_mem e hx)
    · intro x hx
      rcases List.mem_cons.mp hx with rfl | hmem
      · exact h4 _ hepool
      · exact h5 x hmem

/-- The whole spawn loop preserves the store invariant. -/
lemma spawnFold_inv (ps : List CellPosition) (st : CellStore)
    (h : StoreInv st) : StoreInv (ps.foldl spawnCell st) := by
  induction ps generalizing st with
  | nil => exact h
  | cons p ps ih =>
    rw [List.foldl_cons]
    exact ih (spawnCell st p) (spawnCell_inv st p h)

/-- The kill-list handles form a sublist of the alive handles. -/
lemma storeKillList_sublist (st : CellStore) :
    (storeKillList st).Sublist (aliveHandles st) :=
  (List.filter_sublist st.alive).map Prod.snd

/-- Claim C8: the dead-handle pool invariant (no handle both pooled and
alive, all handles distinct and below the fresh-id bound) is preserved by
the kill-then-spawn application of a generation; a kill pushes the handle
onto the pool and removes the entity from the alive set; a spawn pops the
most recent pooled handle when the pool is non-empty and allocates fresh
only when it is empty. -/
theorem dead_pool_invariant (st : CellStore) (h : StoreInv st) :
    StoreInv (storeNextGeneration st) ∧
    (∀ e, (killCell st e).pool = e :: st.pool ∧
      ∀ ch ∈ (killCell st e).alive, ch.2 ≠ e) ∧
    (∀ p e rest, st.pool = e :: rest →
      spawnCell st p = { st with
        alive := ((p, e) :: st.alive),
        pool := rest }) ∧
    (∀ p, st.pool = [] → spawnCell st p = { st with
        alive := ((p, st.nextEntity) :: st.alive),
        nextEntity := st.nextEntity + 1 }) := by
  refine ⟨?_, ?_, ?_, ?_⟩
  · unfold storeNextGeneration
    refine spawnFold_inv _ _ (killFold_inv _ _ h ?_ ?_)
    · exact h.1.sublist (storeKillList_sublist st)
    · exact fun e he => (storeKillList_sublist st).subset he
  · intro e
    refine ⟨rfl, fun ch hch => ?_⟩
    have := List.of_mem_filter hch
    simpa using this
  · intro p e rest hp
    unfold spawnCell
    rw [hp]
  · intro p hp
    unfold spawnCell
    rw [hp]

/-- Witness for claim C8: the invariant survives a generation of the
concrete example store. -/
theorem dead_pool_invariant_witness :
    StoreInv (storeNextGeneration cellStoreExample) :=
  (dead_pool_invariant cellStoreExample (by decide)).1

end GOL
